import Mathlib

/-!
Verification of the diff-viewer core of this repository: the unified-diff
splitter (`splitUnifiedDiffByFile`), its block validator (`validateDiffHunk`),
the viewed-state tracker (`isFileViewed`, `handleToggleViewed`,
`undoLastViewed`, `markAllViewed`), the displayed-file filter (`fileDiffs`),
the "next unviewed file" navigation, and the task-id comparator
(`compareTaskIds`).

The JavaScript source is embedded shallowly: strings stay Lean `String`s but
every primitive the code uses (`split`, `trim`, `startsWith`, `includes`,
`slice`, …) is re-implemented here by structural recursion over `String.data`
so that all definitions evaluate inside the kernel.  JavaScript strings are
UTF-16; the embedding identifies a JS string with its list of Unicode code
points, which is faithful for all code points below 0x10000 (every string the
program manipulates and every input used in a theorem below is ASCII).
-/

/-- Whitespace recognised by JavaScript `String.prototype.trim` and by the
whitespace-skipping phase of `parseInt` (restricted to the code points that
can occur in the program's ASCII inputs, plus NBSP and the BOM). -/
def jsWhitespace (c : Char) : Bool :=
  c == ' ' || c == '\t' || c == '\n' || c == '\r' || c == '\x0B' ||
  c == '\x0C' || c == '\u00A0' || c == '\uFEFF'

/-- JavaScript `s.trim()`. -/
def jsTrim (s : String) : String :=
  String.mk (((s.data.dropWhile jsWhitespace).reverse.dropWhile jsWhitespace).reverse)

/-- JavaScript `s.startsWith(pre)`. -/
def strStartsWith (s pre : String) : Bool :=
  pre.data.isPrefixOf s.data

/-- JavaScript `s.endsWith(suf)`. -/
def strEndsWith (s suf : String) : Bool :=
  suf.data.reverse.isPrefixOf s.data.reverse

/-- Does `pat` occur as a contiguous run somewhere in `cs`?  (Helper for
JavaScript `s.includes(pat)`.) -/
def containsFrom (pat : List Char) : List Char → Bool
  | [] => pat.isEmpty
  | c :: rest => pat.isPrefixOf (c :: rest) || containsFrom pat rest

/-- JavaScript `s.includes(pat)`. -/
def strContains (s pat : String) : Bool :=
  containsFrom pat.data s.data

/-- JavaScript `s.slice(n)` (for a non-negative start index). -/
def strDrop (s : String) (n : Nat) : String :=
  String.mk (s.data.drop n)

/-- Accumulator loop for `splitLines`: builds the current line in reverse. -/
def splitLinesAux : List Char → List Char → List String
  | [], acc => [String.mk acc.reverse]
  | '\n' :: rest, acc => String.mk acc.reverse :: splitLinesAux rest []
  | c :: rest, acc => splitLinesAux rest (c :: acc)

/-- JavaScript `s.split("\n")` — always returns at least one (possibly empty)
line. -/
def splitLines (s : String) : List String :=
  splitLinesAux s.data []

/-- JavaScript `arr.join("\n")`. -/
def joinLines : List String → String
  | [] => ""
  | [l] => l
  | l :: rest => l ++ "\n" ++ joinLines rest

/-- Global replacement of CRLF by LF, as done by `diffText.replace(/\r\n/g,
"\n")`: a left-to-right scan replacing non-overlapping occurrences. -/
def normalizeEols : List Char → List Char
  | '\r' :: '\n' :: rest => '\n' :: normalizeEols rest
  | c :: rest => c :: normalizeEols rest
  | [] => []

/-! ### The djb2 content hash (`hashString`)

The source computes `hash = ((hash << 5) + hash) + charCode` starting from
5381, over JS numbers, and finally takes `(hash >>> 0).toString(36)`.  Since
`x << 5` coerces to a 32-bit integer congruent to `x` modulo 2^32 and the
additions are exact, the final `>>> 0` value equals the fold of
`33 * h + c mod 2^32` (exact as long as intermediate JS floats stay below
2^53, i.e. for strings of fewer than about four million characters). -/

/-- One djb2 step, tracked modulo 2^32. -/
def hashStep (h : Nat) (c : Char) : Nat :=
  (33 * h + c.toNat) % 4294967296

/-- Digit characters used by JavaScript `Number.prototype.toString(36)`:
`0`-`9` then `a`-`z`. -/
def digitChar36 (d : Nat) : Char :=
  if d < 10 then Char.ofNat (48 + d) else Char.ofNat (87 + d)

/-- Fuel-driven base-36 conversion loop (the fuel `n+1` always suffices since
a number has at most `n+1` base-36 digits). -/
def toBase36Core : Nat → Nat → List Char → List Char
  | 0, _, acc => acc
  | fuel + 1, n, acc =>
    if n < 36 then digitChar36 n :: acc
    else toBase36Core fuel (n / 36) (digitChar36 (n % 36) :: acc)

/-- JavaScript `n.toString(36)` for a non-negative integer. -/
def toBase36 (n : Nat) : String :=
  String.mk (toBase36Core (n + 1) n [])

/-- The source's `hashString`: djb2 over the code units, rendered in base 36. -/
def hashString (s : String) : String :=
  toBase36 (s.data.foldl hashStep 5381)

/-! ### The task-id comparator (`compareTaskIds`) -/

/-- JavaScript `parseInt(s, 10)`: skip leading whitespace, read an optional
sign, then the longest run of decimal digits; `NaN` (here `none`) exactly when
that run is empty.  Trailing non-digit characters are ignored.  (JS returns a
float; the value is exact for the short ids the program compares.) -/
def parseIntPrefixOf (s : String) : Option Int :=
  let cs := s.data.dropWhile jsWhitespace
  let signAndRest : Int × List Char :=
    match cs with
    | '-' :: r => (-1, r)
    | '+' :: r => (1, r)
    | _ => (1, cs)
  let ds := signAndRest.2.takeWhile Char.isDigit
  if ds.isEmpty then none
  else some (signAndRest.1 * Int.ofNat (ds.foldl (fun a c => 10 * a + (c.toNat - 48)) 0))

/-- JavaScript `a.localeCompare(b)`, modelled as code-point comparison
returning -1/0/1.  The real implementation consults the ICU collator; for the
ASCII alphanumeric keys compared in this program the collator and code-point
order agree on the sign, which is all the callers use. -/
def localeCompare (a b : String) : Int :=
  if a = b then 0 else if a.data < b.data then -1 else 1

/-- The source's `compareTaskIds`: numeric when both `parseInt` results are
non-NaN, otherwise `localeCompare`. -/
def compareTaskIds (a b : String) : Int :=
  match parseIntPrefixOf a, parseIntPrefixOf b with
  | some numA, some numB => numA - numB
  | _, _ => localeCompare a b

/-- Full-string integer parse, following the claim's words "both parse fully
as integers": every character after an optional sign is a digit and there is
at least one digit. -/
def parseIntFull (s : String) : Option Int :=
  let signAndRest : Int × List Char :=
    match s.data with
    | '-' :: r => (-1, r)
    | '+' :: r => (1, r)
    | _ => (1, s.data)
  if signAndRest.2.isEmpty then none
  else if signAndRest.2.all Char.isDigit then
    some (signAndRest.1 * Int.ofNat (signAndRest.2.foldl (fun a c => 10 * a + (c.toNat - 48)) 0))
  else none

/-- The comparator as the spec describes it: numeric only when both sides
parse *fully* as integers, lexicographic otherwise. -/
def specCompareTaskIds (a b : String) : Int :=
  match parseIntFull a, parseIntFull b with
  | some numA, some numB => numA - numB
  | _, _ => localeCompare a b

/-! ### The block validator (`validateDiffHunk`) -/

/-- Drop a leading run of decimal digits. -/
def skipDigits : List Char → List Char
  | c :: rest => if c.isDigit then skipDigits rest else c :: rest
  | [] => []

/-- Consume `\d+`: at least one digit, then the rest of the input. -/
def parseNum : List Char → Option (List Char)
  | c :: cs => if c.isDigit then some (skipDigits cs) else none
  | [] => none

/-- Consume the literal characters `p` from the front of the input. -/
def expectChars : List Char → List Char → Option (List Char)
  | [], rest => some rest
  | p :: ps, c :: cs => if c = p then expectChars ps cs else none
  | _ :: _, [] => none

/-- Consume the optional group `(?:,\d+)?`. -/
def parseOptComma (cs : List Char) : List Char :=
  match cs with
  | ',' :: rest =>
    match parseNum rest with
    | some r => r
    | none => ',' :: rest
  | _ => cs

/-- Test of the source's hunk-header regular expression
`^@@ -\d+(?:,\d+)? \+\d+(?:,\d+)? @@` (anchored at the start, free at the
end). -/
def matchHunkHeader (l : String) : Bool :=
  match expectChars ['@', '@', ' ', '-'] l.data with
  | none => false
  | some r1 =>
    match parseNum r1 with
    | none => false
    | some r2 =>
      match expectChars [' ', '+'] (parseOptComma r2) with
      | none => false
      | some r4 =>
        match parseNum r4 with
        | none => false
        | some r5 => (expectChars [' ', '@', '@'] (parseOptComma r5)).isSome

/-- Result record of `validateDiffHunk` (`{ valid, reason? }`). -/
structure ValidationResult where
  valid : Bool
  reason : Option String
deriving DecidableEq

/-- The source's `validateDiffHunk`: reject empty blocks and blocks missing or
mis-ordering the `--- ` / `+++ ` marker lines; accept mode-change, rename and
binary blocks outright; otherwise require a hunk header after the `+++ `
line. -/
def validateDiffHunk (diffText : String) : ValidationResult :=
  if (jsTrim diffText).data.isEmpty then ⟨false, some "empty diff"⟩
  else
    let lines := splitLines diffText
    match lines.findIdx? (fun l => strStartsWith l "--- "),
          lines.findIdx? (fun l => strStartsWith l "+++ ") with
    | none, _ => ⟨false, some "missing header lines"⟩
    | some _, none => ⟨false, some "missing header lines"⟩
    | some minusLineIdx, some plusLineIdx =>
      if plusLineIdx ≤ minusLineIdx then ⟨false, some "header order wrong"⟩
      else if strContains diffText "new mode" || strContains diffText "old mode" ||
              strContains diffText "rename from" || strContains diffText "rename to" ||
              strContains diffText "Binary files" then ⟨true, none⟩
      else if (lines.drop (plusLineIdx + 1)).any matchHunkHeader then ⟨true, none⟩
      else ⟨false, some "no hunk headers found"⟩

/-! ### The splitter (`splitUnifiedDiffByFile`) -/

/-- One parsed per-file record (`ParsedDiffFile` in the source; the optional
server-side fields the splitter never sets are omitted). -/
structure ParsedDiffFile where
  key : String
  oldPath : String
  newPath : String
  diffText : String
  isBinary : Bool
  additions : Nat
  deletions : Nat
  isValid : Bool
deriving DecidableEq

/-- Is a trimmed candidate block kept by `pushCurrent`?  (`text &&` means the
trimmed text is non-empty.) -/
def keepBlock (text : String) : Bool :=
  !text.data.isEmpty &&
  (strStartsWith text "diff --git " || strStartsWith text "--- " ||
   strStartsWith text "+++ " || strStartsWith text "Binary files " ||
   strContains text "\n+++ " || strContains text "\nBinary files ")

/-- The source's `pushCurrent`: join the accumulated lines, trim, and append
the block when it carries a recognisable diff marker. -/
def pushCurrent (blocks : List String) (current : List String) : List String :=
  let text := jsTrim (joinLines current)
  if keepBlock text then blocks ++ [text] else blocks

/-- The block-splitting loop: start a new block on each `diff --git ` line
that is not the very first accumulated line. -/
def collectBlocksAux : List String → List String → List String → List String
  | [], blocks, current => pushCurrent blocks current
  | line :: rest, blocks, current =>
    if strStartsWith line "diff --git " && !current.isEmpty then
      collectBlocksAux rest (pushCurrent blocks current) [line]
    else
      collectBlocksAux rest blocks (current ++ [line])

/-- Per-line scan state of the record-extraction loop. -/
structure BlockScan where
  oldPath : String
  newPath : String
  isBinary : Bool
  additions : Nat
  deletions : Nat
deriving DecidableEq

/-- Strip the conventional `a/` prefix from an old path. -/
def stripOldMark (raw : String) : String :=
  if strStartsWith raw "a/" then strDrop raw 2 else raw

/-- Strip the conventional `b/` prefix from a new path. -/
def stripNewMark (raw : String) : String :=
  if strStartsWith raw "b/" then strDrop raw 2 else raw

/-- A line counted as an addition: starts with `+` but is not the `+++ `
new-file marker line. -/
def addLine (line : String) : Bool :=
  strStartsWith line "+" && !(strStartsWith line "+++ ")

/-- A line counted as a deletion: starts with `-` but is not the `--- `
old-file marker line. -/
def delLine (line : String) : Bool :=
  strStartsWith line "-" && !(strStartsWith line "--- ")

/-- One iteration of the source's `for (const line of blockLines)` loop. -/
def scanLine (st : BlockScan) (line : String) : BlockScan :=
  let st1 :=
    if strStartsWith line "Binary files " && strEndsWith line " differ" then
      { st with isBinary := true }
    else st
  let st2 :=
    if strStartsWith line "--- " then
      { st1 with oldPath := stripOldMark (jsTrim (strDrop line 4)) }
    else st1
  let st3 :=
    if strStartsWith line "+++ " then
      { st2 with newPath := stripNewMark (jsTrim (strDrop line 4)) }
    else st2
  if addLine line then { st3 with additions := st3.additions + 1 }
  else if delLine line then { st3 with deletions := st3.deletions + 1 }
  else st3

/-- Turn one retained block into a `ParsedDiffFile` (the body of the
`blocks.map` callback). -/
def parseBlock (blockText : String) (index : Nat) : ParsedDiffFile :=
  let st := (splitLines blockText).foldl scanLine ⟨"", "", false, 0, 0⟩
  let key :=
    if !st.oldPath.data.isEmpty || !st.newPath.data.isEmpty then
      st.oldPath ++ "->" ++ st.newPath
    else "file-" ++ Nat.repr index
  let validation :=
    if st.isBinary then (⟨true, none⟩ : ValidationResult)
    else validateDiffHunk blockText
  { key := key, oldPath := st.oldPath, newPath := st.newPath,
    diffText := blockText, isBinary := st.isBinary,
    additions := st.additions, deletions := st.deletions,
    isValid := validation.valid }

/-- The source's `splitUnifiedDiffByFile`. -/
def splitUnifiedDiffByFile (diffText : String) : List ParsedDiffFile :=
  let normalized := String.mk (normalizeEols diffText.data)
  let lines := splitLines normalized
  let blocks := collectBlocksAux lines [] []
  blocks.enum.map (fun p => parseBlock p.2 p.1)

/-! ### The viewed-state tracker -/

/-- Stored per-file viewed state (`ViewedFileState` in the source). -/
structure ViewedFileState where
  viewed : Bool
  contentHash : String
deriving DecidableEq

/-- The `viewedFiles` record object, keyed by file key; `none` models a key
that is absent from the object. -/
def ViewedFilesStore : Type := String → Option ViewedFileState

/-- The empty store (`{}`). -/
def emptyViewedFiles : ViewedFilesStore := fun _ => none

/-- JS object update `{ ...vf, [k]: s }`. -/
def setViewed (vf : ViewedFilesStore) (k : String) (s : ViewedFileState) :
    ViewedFilesStore :=
  fun k' => if k' = k then some s else vf k'

/-- JS `delete vf[k]` on a copy of the object. -/
def removeViewed (vf : ViewedFilesStore) (k : String) : ViewedFilesStore :=
  fun k' => if k' = k then none else vf k'

/-- The source's `isFileViewed`: the stored state must exist, be `viewed`, and
carry the hash of the *current* diff text. -/
def isFileViewed (viewedFiles : ViewedFilesStore) (fileKey diffText : String) :
    Bool :=
  match viewedFiles fileKey with
  | none => false
  | some viewedState =>
    viewedState.viewed && (viewedState.contentHash == hashString diffText)

/-- One entry of `viewedUndoStackRef` (`previousState === undefined` models a
key that was absent before the toggle). -/
structure UndoEntry where
  fileKey : String
  previousState : Option ViewedFileState

/-- The mutable state touched by a toggle: the `viewedFiles` store and the
undo stack (`push` appends at the end, `shift` drops the front, `pop` removes
the end). -/
structure TrackerState where
  viewedFiles : ViewedFilesStore
  undoStack : List UndoEntry

/-- The state mutation performed by the source's `handleToggleViewed`: record
the previous state on the undo stack (capped at 50 entries, oldest evicted),
then store `{viewed: !isCurrentlyViewed, contentHash: hash(diffText)}`. -/
def handleToggleViewed (st : TrackerState) (fileKey diffText : String) :
    TrackerState :=
  let currentHash := hashString diffText
  let isCurrentlyViewed := isFileViewed st.viewedFiles fileKey diffText
  let willBeViewed := !isCurrentlyViewed
  let pushed := st.undoStack ++ [⟨fileKey, st.viewedFiles fileKey⟩]
  let newStack := if pushed.length > 50 then pushed.tail else pushed
  { viewedFiles := setViewed st.viewedFiles fileKey ⟨willBeViewed, currentHash⟩,
    undoStack := newStack }

/-- The source's `undoLastViewed`: pop the most recent entry and restore it
(deleting the key when it was previously absent); `false` on an empty
stack. -/
def undoLastViewed (st : TrackerState) : Bool × TrackerState :=
  match st.undoStack.getLast? with
  | none => (false, st)
  | some lastAction =>
    let rest := st.undoStack.dropLast
    match lastAction.previousState with
    | none =>
      (true, { viewedFiles := removeViewed st.viewedFiles lastAction.fileKey,
               undoStack := rest })
    | some previousState =>
      (true, { viewedFiles := setViewed st.viewedFiles lastAction.fileKey previousState,
               undoStack := rest })

/-- One iteration of `markAllViewed`'s loop over `fileDiffs`: store
`{viewed: true, contentHash: hash(diffText)}` and `collapsed: true` under the
file's key. -/
def markAllStep (acc : ViewedFilesStore × (String → Option Bool))
    (file : ParsedDiffFile) : ViewedFilesStore × (String → Option Bool) :=
  (setViewed acc.1 file.key ⟨true, hashString file.diffText⟩,
   fun k' => if k' = file.key then some true else acc.2 k')

/-- The source's `markAllViewed`: build a fresh viewed store (hash of each
file's current diff text) and a fresh collapsed store (every key collapsed),
replacing the previous ones. -/
def markAllViewed (fileDiffs : List ParsedDiffFile) :
    ViewedFilesStore × (String → Option Bool) :=
  fileDiffs.foldl markAllStep (emptyViewedFiles, fun _ => none)

/-! ### The displayed-file filter (`fileDiffs`) -/

/-- The `validFiles` predicate inside the `fileDiffs` memo: drop records whose
key is the synthetic `file-N` fallback with no real paths, and records whose
paths are both `/dev/null`. -/
def isDisplayedRecord (file : ParsedDiffFile) : Bool :=
  !(strStartsWith file.key "file-" && file.oldPath == "" && file.newPath == "") &&
  !(file.oldPath == "/dev/null" && file.newPath == "/dev/null")

/-- The source's `fileDiffs` memo: filter out non-displayable records, then
(when a path filter is active) keep only records matching one of the filter
paths by equality or suffix in either direction. -/
def fileDiffs (effectiveFilter : Option (List String))
    (allFileDiffs : List ParsedDiffFile) : List ParsedDiffFile :=
  let validFiles := allFileDiffs.filter isDisplayedRecord
  let validFilterPaths :=
    (effectiveFilter.getD []).filter (fun p => !p.data.isEmpty && p != "/dev/null")
  if validFilterPaths.isEmpty then validFiles
  else
    validFiles.filter (fun file =>
      let filePath := if file.newPath != "/dev/null" then file.newPath else file.oldPath
      validFilterPaths.any (fun filterPath =>
        filePath == filterPath || strEndsWith filePath filterPath ||
        strEndsWith filterPath filePath))

/-! ### Next-unviewed-file navigation (inside `handleToggleViewed`) -/

/-- Fuel-counted rendering of the source's index loop
`for (let i = start; i < stop; i++) { const file = files[i]; if (file &&
!isFileViewedWithNewState(...)) return file }`; the fuel is the number of
remaining iterations `stop - i`. -/
def scanUnviewedGo (vf : ViewedFilesStore) (files : List ParsedDiffFile) :
    Nat → Nat → Option ParsedDiffFile
  | 0, _ => none
  | fuel + 1, i =>
    match files[i]? with
    | some file =>
      if !isFileViewed vf file.key file.diffText then some file
      else scanUnviewedGo vf files fuel (i + 1)
    | none => scanUnviewedGo vf files fuel (i + 1)

/-- The loop over indices `start ≤ i < stop`. -/
def scanUnviewed (vf : ViewedFilesStore) (files : List ParsedDiffFile)
    (start stop : Nat) : Option ParsedDiffFile :=
  scanUnviewedGo vf files (stop - start) start

/-- The `nextUnviewedFile` computation of `handleToggleViewed`: locate the
current file by key, scan forward for an unviewed file, and wrap around to
scan the region before the current index when the forward scan fails. -/
def nextUnviewedFile (vf : ViewedFilesStore) (files : List ParsedDiffFile)
    (fileKey : String) : Option ParsedDiffFile :=
  match files.findIdx? (fun f => f.key == fileKey) with
  | none => none
  | some currentIndex =>
    match scanUnviewed vf files (currentIndex + 1) files.length with
    | some file => some file
    | none => scanUnviewed vf files 0 currentIndex

/-- Path selection for the found file: `newPath` when it is non-empty and not
`/dev/null`, else `oldPath`. -/
def diffFilePath (file : ParsedDiffFile) : String :=
  if !file.newPath.data.isEmpty && file.newPath != "/dev/null" then file.newPath
  else file.oldPath

/-- The navigation side effect of `handleToggleViewed`: `some path` when
`onSelectNextFile(path)` is invoked, `none` when focus stays put.  The search
runs against the store as updated by the toggle, and only when the toggle
marks the file viewed. -/
def toggleNavigation (st : TrackerState) (files : List ParsedDiffFile)
    (fileKey diffText : String) : Option String :=
  let willBeViewed := !isFileViewed st.viewedFiles fileKey diffText
  if willBeViewed then
    match nextUnviewedFile (handleToggleViewed st fileKey diffText).viewedFiles
        files fileKey with
    | some file =>
      let filePath := diffFilePath file
      if !filePath.data.isEmpty && filePath != "/dev/null" then some filePath
      else none
    | none => none
  else none

/-- Stable insertion of a record into a list ascending under
`compareTaskIds` on keys — helper for the display order the spec describes. -/
def insertByKey (f : ParsedDiffFile) : List ParsedDiffFile → List ParsedDiffFile
  | [] => [f]
  | g :: rest =>
    if compareTaskIds f.key g.key ≤ 0 then f :: g :: rest
    else g :: insertByKey f rest

/-- The display order claimed by the spec: the file list sorted by the
numeric-then-lexicographic key comparator (stable insertion sort). -/
def sortByKeyCmp (files : List ParsedDiffFile) : List ParsedDiffFile :=
  files.foldr insertByKey []

/-! ## Claims -/

/-- Claim C7: the diff splitter is total — it is a plain function returning a
list for every input string (totality is inherent in the definition compiling
as a Lean `def`) — and the empty input produces exactly zero records. -/
theorem split_empty_input : splitUnifiedDiffByFile "" = [] := by decide

/-- Claim C4: a non-binary block with old- and new-file markers but no hunk
header is rejected by `validateDiffHunk`, and appending a well-formed
`@@ -1,1 +1,1 @@` line makes it valid. -/
theorem validateDiffHunk_boundary :
    (validateDiffHunk "--- a/x\n+++ b/x").valid = false ∧
    (validateDiffHunk "--- a/x\n+++ b/x\n@@ -1,1 +1,1 @@").valid = true := by
  decide

/-- Counterexample to claim C1: JavaScript `parseInt` parses the leading digit
run, so `"2a"` parses to `2` (not NaN) and `compareTaskIds "2a" "10"` compares
numerically, ordering `"2a"` *before* `"10"` — the opposite of the claimed
lexicographic fallback (`specCompareTaskIds`, which follows the claim's words,
orders `"10"` first). -/
theorem compareTaskIds_claim_cex :
    compareTaskIds "2a" "10" < 0 ∧ 0 < specCompareTaskIds "2a" "10" ∧
    compareTaskIds "2a" "10" ≠ specCompareTaskIds "2a" "10" := by decide

/-- Claim C1 as amended: the comparator compares numerically whenever *both*
inputs have a non-empty leading integer prefix in the sense of JavaScript
`parseInt` (full parsing is not required); `"2"` still sorts before `"10"`
numerically, and `"2a"` vs `"10"` is also compared numerically (2 < 10), so
`"2a"` sorts before `"10"`.  The lexicographic fallback applies only when a
side has no integer prefix at all, e.g. `"b"` vs `"a10"`. -/
theorem compareTaskIds_numeric_on_parsed (a b : String) (x y : Int)
    (ha : parseIntPrefixOf a = some x) (hb : parseIntPrefixOf b = some y) :
    compareTaskIds a b = x - y ∧ compareTaskIds "2" "10" < 0 ∧
    compareTaskIds "2a" "10" < 0 ∧ 0 < compareTaskIds "b" "a10" := by
  refine ⟨?_, by decide, by decide, by decide⟩
  simp [compareTaskIds, ha, hb]

/-- Witness for `compareTaskIds_numeric_on_parsed` at `a = "2a"`, `b = "10"`. -/
theorem compareTaskIds_numeric_on_parsed_witness :
    parseIntPrefixOf "2a" = some 2 ∧ parseIntPrefixOf "10" = some 10 ∧
    (compareTaskIds "2a" "10" = 2 - 10 ∧ compareTaskIds "2" "10" < 0 ∧
     compareTaskIds "2a" "10" < 0 ∧ 0 < compareTaskIds "b" "a10") :=
  ⟨by decide, by decide,
   compareTaskIds_numeric_on_parsed "2a" "10" 2 10 (by decide) (by decide)⟩

/-- Claim C2: `isFileViewed` answers true exactly when the stored state is
`{viewed: true, contentHash: hash(currentText)}`; after toggling an unviewed
file at text `t₁`, the file reads as viewed at `t₁` but *not* at any text
`t₂` with a different hash, until it is marked viewed again at `t₂`. -/
theorem isFileViewed_hash_staleness (vf : ViewedFilesStore) (k' t' : String)
    (st : TrackerState) (k t₁ t₂ : String)
    (h₀ : isFileViewed st.viewedFiles k t₁ = false)
    (hne : hashString t₂ ≠ hashString t₁) :
    (isFileViewed vf k' t' = true ↔ vf k' = some ⟨true, hashString t'⟩) ∧
    isFileViewed (handleToggleViewed st k t₁).viewedFiles k t₁ = true ∧
    isFileViewed (handleToggleViewed st k t₁).viewedFiles k t₂ = false ∧
    isFileViewed
      (handleToggleViewed (handleToggleViewed st k t₁) k t₂).viewedFiles k t₂ =
      true := by
  have hiff : ∀ (w : ViewedFilesStore) (a b : String),
      isFileViewed w a b = true ↔ w a = some ⟨true, hashString b⟩ := by
    intro w a b
    cases hwa : w a with
    | none => simp [isFileViewed, hwa]
    | some s =>
      cases s with
      | mk v ch =>
        cases v <;> simp [isFileViewed, hwa, ViewedFileState.mk.injEq]
  have hsv : ∀ (w : ViewedFilesStore) (a b : String) (s : ViewedFileState),
      isFileViewed (setViewed w a s) a b =
        (s.viewed && (s.contentHash == hashString b)) := by
    intro w a b s
    simp [isFileViewed, setViewed]
  have hset : (handleToggleViewed st k t₁).viewedFiles =
      setViewed st.viewedFiles k ⟨true, hashString t₁⟩ := by
    simp [handleToggleViewed, h₀]
  have h2 : isFileViewed (handleToggleViewed st k t₁).viewedFiles k t₁ = true := by
    rw [hset, hsv]; simp
  have h3 : isFileViewed (handleToggleViewed st k t₁).viewedFiles k t₂ = false := by
    rw [hset, hsv]
    simp [beq_eq_false_iff_ne]
    exact Ne.symm hne
  refine ⟨hiff vf k' t', h2, h3, ?_⟩
  generalize hst1 : handleToggleViewed st k t₁ = st1 at h3
  have hset2 : (handleToggleViewed st1 k t₂).viewedFiles =
      setViewed st1.viewedFiles k ⟨true, hashString t₂⟩ := by
    simp [handleToggleViewed, h3]
  rw [hset2, hsv]; simp

/-- Witness for `isFileViewed_hash_staleness`: empty store, key `"f"`, texts
`"a"` and `"b"` (whose djb2 hashes differ). -/
theorem isFileViewed_hash_staleness_witness :
    isFileViewed (TrackerState.mk emptyViewedFiles []).viewedFiles "f" "a" = false ∧
    hashString "b" ≠ hashString "a" ∧
    ((isFileViewed emptyViewedFiles "f" "a" = true ↔
        emptyViewedFiles "f" = some ⟨true, hashString "a"⟩) ∧
      isFileViewed
        (handleToggleViewed (TrackerState.mk emptyViewedFiles []) "f" "a").viewedFiles
        "f" "a" = true ∧
      isFileViewed
        (handleToggleViewed (TrackerState.mk emptyViewedFiles []) "f" "a").viewedFiles
        "f" "b" = false ∧
      isFileViewed
        (handleToggleViewed
          (handleToggleViewed (TrackerState.mk emptyViewedFiles []) "f" "a") "f"
          "b").viewedFiles "f" "b" = true) :=
  ⟨by decide, by decide,
   isFileViewed_hash_staleness emptyViewedFiles "f" "a"
     (TrackerState.mk emptyViewedFiles []) "f" "a" "b" (by decide) (by decide)⟩

/-- Claim C6: toggling then undoing restores the file's stored viewed state to
its pre-toggle value (so its effective viewed status is restored, whether it
was absent, unviewed, or viewed under an older hash); undo on an empty stack
reports `false`; the undo stack never grows beyond 50 entries, the oldest
being evicted first. -/
theorem undo_restores_viewed_state (st : TrackerState) (k t : String)
    (hlen : st.undoStack.length ≤ 50) :
    (undoLastViewed (handleToggleViewed st k t)).1 = true ∧
    (undoLastViewed (handleToggleViewed st k t)).2.viewedFiles k =
      st.viewedFiles k ∧
    (st.undoStack = [] → (undoLastViewed st).1 = false) ∧
    (handleToggleViewed st k t).undoStack.length ≤ 50 ∧
    (st.undoStack.length = 50 →
      (handleToggleViewed st k t).undoStack =
        st.undoStack.tail ++ [⟨k, st.viewedFiles k⟩]) := by
  have hstack : (handleToggleViewed st k t).undoStack =
      (if (st.undoStack ++ [UndoEntry.mk k (st.viewedFiles k)]).length > 50 then
        (st.undoStack ++ [UndoEntry.mk k (st.viewedFiles k)]).tail
      else st.undoStack ++ [UndoEntry.mk k (st.viewedFiles k)]) := by
    simp [handleToggleViewed]
  have hlast : (handleToggleViewed st k t).undoStack.getLast? =
      some (UndoEntry.mk k (st.viewedFiles k)) := by
    rw [hstack]
    split
    · rename_i hgt
      cases hs : st.undoStack with
      | nil => rw [hs] at hgt; simp at hgt
      | cons x xs => simp [List.getLast?_concat]
    · simp [List.getLast?_concat]
  have hundo : undoLastViewed (handleToggleViewed st k t) =
      (true,
       { viewedFiles :=
           match st.viewedFiles k with
           | none => removeViewed (handleToggleViewed st k t).viewedFiles k
           | some s => setViewed (handleToggleViewed st k t).viewedFiles k s,
         undoStack := (handleToggleViewed st k t).undoStack.dropLast }) := by
    rw [undoLastViewed, hlast]
    cases hk : st.viewedFiles k <;> simp
  refine ⟨?_, ?_, ?_, ?_, ?_⟩
  · rw [hundo]
  · rw [hundo]
    cases hk : st.viewedFiles k with
    | none => simp [removeViewed]
    | some s => simp [setViewed]
  · intro hnil
    rw [undoLastViewed, hnil]
    simp
  · rw [hstack]
    split
    · rename_i hgt
      simp at hgt ⊢
      omega
    · rename_i hgt
      simp at hgt ⊢
      omega
  · intro h50
    rw [hstack]
    have hgt : (st.undoStack ++ [(⟨k, st.viewedFiles k⟩ : UndoEntry)]).length > 50 := by
      simp [h50]
    rw [if_pos hgt]
    cases hs : st.undoStack with
    | nil => rw [hs] at h50; simp at h50
    | cons x xs => simp

/-- Witness for `undo_restores_viewed_state`: the empty tracker state, key
`"f"`, text `"a"`. -/
theorem undo_restores_viewed_state_witness :
    (TrackerState.mk emptyViewedFiles []).undoStack.length ≤ 50 ∧
    ((undoLastViewed
        (handleToggleViewed (TrackerState.mk emptyViewedFiles []) "f" "a")).1 =
        true ∧
      (undoLastViewed
        (handleToggleViewed (TrackerState.mk emptyViewedFiles []) "f" "a")).2.viewedFiles
        "f" = (TrackerState.mk emptyViewedFiles []).viewedFiles "f" ∧
      ((TrackerState.mk emptyViewedFiles []).undoStack = [] →
        (undoLastViewed (TrackerState.mk emptyViewedFiles [])).1 = false) ∧
      (handleToggleViewed (TrackerState.mk emptyViewedFiles []) "f"
            "a").undoStack.length ≤ 50 ∧
      ((TrackerState.mk emptyViewedFiles []).undoStack.length = 50 →
        (handleToggleViewed (TrackerState.mk emptyViewedFiles []) "f"
            "a").undoStack =
          (TrackerState.mk emptyViewedFiles []).undoStack.tail ++
            [⟨"f", (TrackerState.mk emptyViewedFiles []).viewedFiles "f"⟩])) :=
  ⟨by decide,
   undo_restores_viewed_state (TrackerState.mk emptyViewedFiles []) "f" "a"
     (by decide)⟩

/-- A line cannot be counted both as an addition and as a deletion. -/
lemma addLine_not_delLine (l : String) : addLine l = true → delLine l = false := by
  intro h
  have h1 : (("+" : String)).data.isPrefixOf l.data = true :=
    (Bool.and_eq_true ..).mp h |>.1
  unfold delLine strStartsWith
  cases hd : l.data with
  | nil => rw [hd] at h1; simp [List.isPrefixOf] at h1
  | cons c cs =>
    rw [hd] at h1
    have hc : c = '+' := by
      have : (('+' == c) && List.isPrefixOf [] cs) = true := h1
      simp at this
      exact this.symm
    subst hc
    simp [List.isPrefixOf]

/-- The scan step bumps `additions` exactly on addition lines. -/
lemma scanLine_additions (st : BlockScan) (l : String) :
    (scanLine st l).additions = st.additions + (if addLine l then 1 else 0) := by
  by_cases h4 : addLine l <;>
    by_cases h5 : delLine l <;>
      simp [scanLine, h4, h5, apply_ite BlockScan.additions]

/-- The scan step bumps `deletions` exactly on deletion lines. -/
lemma scanLine_deletions (st : BlockScan) (l : String) :
    (scanLine st l).deletions = st.deletions + (if delLine l then 1 else 0) := by
  by_cases h4 : addLine l
  · have h5 : delLine l = false := addLine_not_delLine l h4
    simp [scanLine, h4, h5, apply_ite BlockScan.deletions]
  · by_cases h5 : delLine l <;>
      simp [scanLine, h4, h5, apply_ite BlockScan.deletions]

/-- The scan loop counts addition lines. -/
lemma foldl_scanLine_additions (ls : List String) : ∀ st : BlockScan,
    (ls.foldl scanLine st).additions =
      st.additions + (ls.filter addLine).length := by
  induction ls with
  | nil => intro st; simp
  | cons l rest ih =>
    intro st
    simp only [List.foldl_cons, List.filter_cons]
    rw [ih, scanLine_additions]
    by_cases h : addLine l
    · simp only [h, if_true, List.length_cons]
      omega
    · simp only [h, if_false, Bool.false_eq_true]
      omega

/-- The scan loop counts deletion lines. -/
lemma foldl_scanLine_deletions (ls : List String) : ∀ st : BlockScan,
    (ls.foldl scanLine st).deletions =
      st.deletions + (ls.filter delLine).length := by
  induction ls with
  | nil => intro st; simp
  | cons l rest ih =>
    intro st
    simp only [List.foldl_cons, List.filter_cons]
    rw [ih, scanLine_deletions]
    by_cases h : delLine l
    · simp only [h, if_true, List.length_cons]
      omega
    · simp only [h, if_false, Bool.false_eq_true]
      omega

/-- Claim C3: every record produced by the splitter carries `additions` equal
to the number of its block's lines starting with `+` other than the `+++ `
new-file marker line, and `deletions` equal to the number of lines starting
with `-` other than the `--- ` old-file marker line. -/
theorem split_counts (d : String) (r : ParsedDiffFile)
    (hr : r ∈ splitUnifiedDiffByFile d) :
    r.additions = ((splitLines r.diffText).filter addLine).length ∧
    r.deletions = ((splitLines r.diffText).filter delLine).length := by
  unfold splitUnifiedDiffByFile at hr
  simp only [List.mem_map] at hr
  obtain ⟨⟨i, b⟩, hmem, rfl⟩ := hr
  constructor
  · show (parseBlock b i).additions = _
    simp only [parseBlock]
    rw [foldl_scanLine_additions]
    simp
  · show (parseBlock b i).deletions = _
    simp only [parseBlock]
    rw [foldl_scanLine_deletions]
    simp

/-- Sample input for the splitter: one modified file with two added lines and
one deleted line. -/
def sampleDiff : String := "--- a/x\n+++ b/x\n@@ -1,1 +1,2 @@\n-old\n+new\n+new2"

/-- The record the splitter produces for `sampleDiff`. -/
def sampleRecord : ParsedDiffFile := ⟨"x->x", "x", "x", sampleDiff, false, 2, 1, true⟩

/-- Witness for `split_counts` on `sampleDiff`. -/
theorem split_counts_witness :
    sampleRecord ∈ splitUnifiedDiffByFile sampleDiff ∧
    (sampleRecord.additions =
        ((splitLines sampleRecord.diffText).filter addLine).length ∧
      sampleRecord.deletions =
        ((splitLines sampleRecord.diffText).filter delLine).length) :=
  ⟨by decide, split_counts sampleDiff sampleRecord (by decide)⟩

/-- The scan step never clears the binary flag. -/
lemma scanLine_isBinary_mono (st : BlockScan) (l : String)
    (h : st.isBinary = true) : (scanLine st l).isBinary = true := by
  simp [scanLine, h, apply_ite BlockScan.isBinary]

/-- The scan step sets the binary flag on a `Binary files … differ` line. -/
lemma scanLine_isBinary_set (st : BlockScan) (l : String)
    (h : (strStartsWith l "Binary files " && strEndsWith l " differ") = true) :
    (scanLine st l).isBinary = true := by
  simp [scanLine, h, apply_ite BlockScan.isBinary]

/-- The scan loop keeps the binary flag once set. -/
lemma foldl_scanLine_isBinary_mono (ls : List String) : ∀ st : BlockScan,
    st.isBinary = true → (ls.foldl scanLine st).isBinary = true := by
  induction ls with
  | nil => intro st h; simpa using h
  | cons l rest ih =>
    intro st h
    simp only [List.foldl_cons]
    exact ih _ (scanLine_isBinary_mono st l h)

/-- A `Binary files … differ` line anywhere in the block makes the scan
report binary. -/
lemma foldl_scanLine_isBinary (ls : List String) (l : String) (hl : l ∈ ls)
    (h : (strStartsWith l "Binary files " && strEndsWith l " differ") = true) :
    ∀ st : BlockScan, (ls.foldl scanLine st).isBinary = true := by
  induction ls with
  | nil => cases hl
  | cons l' rest ih =>
    intro st
    simp only [List.foldl_cons]
    rcases List.mem_cons.mp hl with heq | hmem
    · subst heq
      exact foldl_scanLine_isBinary_mono rest _ (scanLine_isBinary_set st l h)
    · exact ih hmem _

/-- Claim C5: a block containing a line starting with `Binary files ` and
ending with ` differ` always yields a record with `isBinary = true` and
`isValid = true`, independently of hunk headers. -/
theorem binary_block_valid (d : String) (r : ParsedDiffFile) (l : String)
    (hr : r ∈ splitUnifiedDiffByFile d) (hl : l ∈ splitLines r.diffText)
    (hstart : strStartsWith l "Binary files " = true)
    (hend : strEndsWith l " differ" = true) :
    r.isBinary = true ∧ r.isValid = true := by
  unfold splitUnifiedDiffByFile at hr
  simp only [List.mem_map] at hr
  obtain ⟨⟨i, b⟩, hmem, rfl⟩ := hr
  have hl' : l ∈ splitLines b := hl
  have hb : ((splitLines b).foldl scanLine ⟨"", "", false, 0, 0⟩).isBinary = true :=
    foldl_scanLine_isBinary (splitLines b) l hl'
      (by rw [hstart, hend]; rfl) _
  refine ⟨?_, ?_⟩
  · show (parseBlock b i).isBinary = true
    simp [parseBlock, hb]
  · show (parseBlock b i).isValid = true
    simp [parseBlock, hb]

/-- The one-line binary diff used as a witness input. -/
def binarySampleDiff : String := "Binary files a/x and b/x differ"

/-- The record the splitter produces for `binarySampleDiff`. -/
def binarySampleRecord : ParsedDiffFile :=
  ⟨"file-0", "", "", binarySampleDiff, true, 0, 0, true⟩

/-- Witness for `binary_block_valid` on `binarySampleDiff`. -/
theorem binary_block_valid_witness :
    binarySampleRecord ∈ splitUnifiedDiffByFile binarySampleDiff ∧
    binarySampleDiff ∈ splitLines binarySampleRecord.diffText ∧
    strStartsWith binarySampleDiff "Binary files " = true ∧
    strEndsWith binarySampleDiff " differ" = true ∧
    (binarySampleRecord.isBinary = true ∧ binarySampleRecord.isValid = true) :=
  ⟨by decide, by decide, by decide, by decide,
   binary_block_valid binarySampleDiff binarySampleRecord binarySampleDiff
     (by decide) (by decide) (by decide) (by decide)⟩

/-- A `markAllStep` application leaves other keys untouched. -/
lemma markAllStep_other (acc : ViewedFilesStore × (String → Option Bool))
    (file : ParsedDiffFile) (k : String) (h : file.key ≠ k) :
    (markAllStep acc file).1 k = acc.1 k ∧ (markAllStep acc file).2 k = acc.2 k := by
  have h' : ¬k = file.key := fun he => h he.symm
  simp [markAllStep, setViewed, h']

/-- The `markAllViewed` loop leaves keys owned by none of its files
untouched. -/
lemma foldl_markAllStep_other (files : List ParsedDiffFile) (k : String)
    (h : ∀ f ∈ files, f.key ≠ k) :
    ∀ acc, (files.foldl markAllStep acc).1 k = acc.1 k ∧
      (files.foldl markAllStep acc).2 k = acc.2 k := by
  induction files with
  | nil => intro acc; exact ⟨rfl, rfl⟩
  | cons g rest ih =>
    intro acc
    simp only [List.foldl_cons]
    have hg := markAllStep_other acc g k (h g (List.mem_cons_self g rest))
    have hrest := ih (fun f hf => h f (List.mem_cons_of_mem g hf)) (markAllStep acc g)
    exact ⟨hrest.1.trans hg.1, hrest.2.trans hg.2⟩

/-- The `markAllViewed` loop stores the expected entry for each file whose key
is unique in the list. -/
lemma foldl_markAllStep_self (files : List ParsedDiffFile)
    (f : ParsedDiffFile) (hf : f ∈ files)
    (hnd : (files.map ParsedDiffFile.key).Nodup) :
    ∀ acc, (files.foldl markAllStep acc).1 f.key =
        some ⟨true, hashString f.diffText⟩ ∧
      (files.foldl markAllStep acc).2 f.key = some true := by
  induction files with
  | nil => cases hf
  | cons g rest ih =>
    intro acc
    simp only [List.foldl_cons]
    simp only [List.map_cons, List.nodup_cons, List.mem_map] at hnd
    rcases List.mem_cons.mp hf with heq | hmem
    · subst heq
      have hothers : ∀ f' ∈ rest, f'.key ≠ f.key := by
        intro f' hf' he
        exact hnd.1 ⟨f', hf', he⟩
      have hrest := foldl_markAllStep_other rest f.key hothers (markAllStep acc f)
      refine ⟨hrest.1.trans ?_, hrest.2.trans ?_⟩
      · simp [markAllStep, setViewed]
      · simp [markAllStep]
    · exact ih hmem hnd.2 (markAllStep acc g)

/-- Counterexample to claim C9: two records sharing the key `"x->x"` but with
different diff texts.  `markAllViewed` keys its stores by file key, so the
later record overwrites the earlier one's hash and the earlier file's
effective viewed status stays false. -/
theorem markAllViewed_claim_cex :
    (⟨"x->x", "x", "x", "A", false, 0, 0, true⟩ : ParsedDiffFile) ∈
      [(⟨"x->x", "x", "x", "A", false, 0, 0, true⟩ : ParsedDiffFile),
       ⟨"x->x", "x", "x", "B", false, 0, 0, true⟩] ∧
    isFileViewed
      (markAllViewed
        [⟨"x->x", "x", "x", "A", false, 0, 0, true⟩,
         ⟨"x->x", "x", "x", "B", false, 0, 0, true⟩]).1
      "x->x" "A" = false := by decide

/-- Claim C9 as amended: provided no two records in the list share a file key,
`markAllViewed` stores `{viewed: true, contentHash: hash(diffText)}` for every
file — so every file's effective viewed status becomes true — and collapses
every file's display state.  (With duplicate keys the last record wins, see
the counterexample.) -/
theorem markAllViewed_distinct_keys (files : List ParsedDiffFile)
    (f : ParsedDiffFile) (hf : f ∈ files)
    (hnd : (files.map ParsedDiffFile.key).Nodup) :
    (markAllViewed files).1 f.key = some ⟨true, hashString f.diffText⟩ ∧
    isFileViewed (markAllViewed files).1 f.key f.diffText = true ∧
    (markAllViewed files).2 f.key = some true := by
  have h := foldl_markAllStep_self files f hf hnd (emptyViewedFiles, fun _ => none)
  refine ⟨h.1, ?_, h.2⟩
  show isFileViewed (markAllViewed files).1 f.key f.diffText = true
  unfold markAllViewed
  rw [isFileViewed, h.1]
  simp

/-- Witness for `markAllViewed_distinct_keys` on a two-file list with distinct
keys. -/
theorem markAllViewed_distinct_keys_witness :
    sampleRecord ∈ [sampleRecord, binarySampleRecord] ∧
    ([sampleRecord, binarySampleRecord].map ParsedDiffFile.key).Nodup ∧
    ((markAllViewed [sampleRecord, binarySampleRecord]).1 sampleRecord.key =
        some ⟨true, hashString sampleRecord.diffText⟩ ∧
      isFileViewed (markAllViewed [sampleRecord, binarySampleRecord]).1
        sampleRecord.key sampleRecord.diffText = true ∧
      (markAllViewed [sampleRecord, binarySampleRecord]).2 sampleRecord.key =
        some true) :=
  ⟨by decide, by decide,
   markAllViewed_distinct_keys [sampleRecord, binarySampleRecord] sampleRecord
     (by decide) (by decide)⟩

/-- Claim C10: records whose key is the synthetic `file-N` fallback with both
paths empty, and records whose paths are both `/dev/null`, never appear in the
displayed `fileDiffs` list (under any path filter) — even though the splitter
does produce such records, as the two concrete inputs show. -/
theorem displayed_excludes_synthetic (filt : Option (List String))
    (allFiles : List ParsedDiffFile) (r : ParsedDiffFile)
    (hbad : (strStartsWith r.key "file-" = true ∧ r.oldPath = "" ∧ r.newPath = "") ∨
      (r.oldPath = "/dev/null" ∧ r.newPath = "/dev/null")) :
    r ∉ fileDiffs filt allFiles ∧
    (splitUnifiedDiffByFile "Binary files a/x and b/x differ").map
        (fun f => (f.key, f.oldPath, f.newPath)) = [("file-0", "", "")] ∧
    (splitUnifiedDiffByFile
        "--- /dev/null\n+++ /dev/null\n@@ -1,1 +1,1 @@\n-a\n+b").map
        (fun f => (f.oldPath, f.newPath)) = [("/dev/null", "/dev/null")] := by
  refine ⟨?_, by decide, by decide⟩
  have hdisp : isDisplayedRecord r = false := by
    unfold isDisplayedRecord
    rcases hbad with ⟨h1, h2, h3⟩ | ⟨h1, h2⟩
    · simp [h1, h2, h3]
    · simp [h1, h2]
  intro hmem
  simp only [fileDiffs] at hmem
  have hval : r ∈ allFiles.filter isDisplayedRecord := by
    split at hmem
    · exact hmem
    · exact List.mem_of_mem_filter hmem
  have htrue := List.of_mem_filter hval
  rw [hdisp] at htrue
  cases htrue

/-- Witness for `displayed_excludes_synthetic`: the synthetic binary record,
with no path filter, in a one-element list. -/
theorem displayed_excludes_synthetic_witness :
    ((strStartsWith binarySampleRecord.key "file-" = true ∧
        binarySampleRecord.oldPath = "" ∧ binarySampleRecord.newPath = "") ∨
      (binarySampleRecord.oldPath = "/dev/null" ∧
        binarySampleRecord.newPath = "/dev/null")) ∧
    (binarySampleRecord ∉ fileDiffs none [binarySampleRecord] ∧
      (splitUnifiedDiffByFile "Binary files a/x and b/x differ").map
          (fun f => (f.key, f.oldPath, f.newPath)) = [("file-0", "", "")] ∧
      (splitUnifiedDiffByFile
          "--- /dev/null\n+++ /dev/null\n@@ -1,1 +1,1 @@\n-a\n+b").map
          (fun f => (f.oldPath, f.newPath)) = [("/dev/null", "/dev/null")]) :=
  ⟨by decide,
   displayed_excludes_synthetic none [binarySampleRecord] binarySampleRecord
     (by decide)⟩

/-- The index loop is `find?` over the corresponding slice of the list. -/
lemma scanUnviewedGo_spec (vf : ViewedFilesStore) (files : List ParsedDiffFile) :
    ∀ (fuel i : Nat),
      scanUnviewedGo vf files fuel i =
        ((files.drop i).take fuel).find?
          (fun f => !isFileViewed vf f.key f.diffText) := by
  intro fuel
  induction fuel with
  | zero => intro i; simp [scanUnviewedGo]
  | succ n ih =>
    intro i
    cases hgi : files[i]? with
    | some f =>
      have hlt : i < files.length := by
        by_contra hge
        rw [List.getElem?_eq_none (Nat.le_of_not_lt hge)] at hgi
        cases hgi
      have hfi : files[i] = f := by
        have := hgi
        rwa [List.getElem?_eq_getElem hlt, Option.some.injEq] at this
      have hdrop : files.drop i = f :: files.drop (i + 1) := by
        rw [List.drop_eq_getElem_cons hlt, hfi]
      rw [scanUnviewedGo, hgi, hdrop]
      by_cases hp : isFileViewed vf f.key f.diffText
      · simp only [hp]
        rw [ih (i + 1)]
        simp [List.find?_cons, hp]
      · simp [hp]
    | none =>
      have hle : files.length ≤ i := by
        by_contra hlt
        rw [List.getElem?_eq_getElem (Nat.lt_of_not_le hlt)] at hgi
        cases hgi
      rw [scanUnviewedGo, hgi, ih (i + 1)]
      rw [List.drop_eq_nil_of_le hle,
        List.drop_eq_nil_of_le (Nat.le_succ_of_le hle)]
      simp

/-- The forward scan from just after the current index covers the tail of the
list. -/
lemma scanUnviewed_tail (vf : ViewedFilesStore) (files : List ParsedDiffFile)
    (idx : Nat) :
    scanUnviewed vf files (idx + 1) files.length =
      (files.drop (idx + 1)).find?
        (fun f => !isFileViewed vf f.key f.diffText) := by
  unfold scanUnviewed
  rw [scanUnviewedGo_spec]
  congr 1
  exact List.take_of_length_le (by simp)

/-- The wrap-around scan covers the region before the current index. -/
lemma scanUnviewed_wrap (vf : ViewedFilesStore) (files : List ParsedDiffFile)
    (idx : Nat) :
    scanUnviewed vf files 0 idx =
      (files.take idx).find? (fun f => !isFileViewed vf f.key f.diffText) := by
  unfold scanUnviewed
  rw [scanUnviewedGo_spec]
  simp

/-- Applying `find?` to an append searches the left part first. -/
lemma find?_append_orElse {α : Type} (p : α → Bool) :
    ∀ l₁ l₂ : List α,
      (l₁ ++ l₂).find? p =
        match l₁.find? p with
        | some x => some x
        | none => l₂.find? p := by
  intro l₁ l₂
  induction l₁ with
  | nil => simp
  | cons a l ih =>
    by_cases hp : p a <;> simp [List.find?_cons, hp, ih]

/-- Counterexample to claim C8: with parsed list order `[b.txt, a2.txt,
a10.txt]`, marking `b.txt` viewed advances focus to `a2.txt` — the next
unviewed file in *list* order — whereas the next unviewed file in the
comparator-sorted display order the claim describes would be `a10.txt`
(`compareTaskIds` puts `a10.txt… < a2.txt… < b.txt…`). -/
theorem next_unviewed_sorted_claim_cex :
    toggleNavigation (TrackerState.mk emptyViewedFiles [])
        [⟨"b.txt->b.txt", "b.txt", "b.txt", "-x\n+y", false, 1, 1, true⟩,
         ⟨"a2.txt->a2.txt", "a2.txt", "a2.txt", "-x2\n+y2", false, 1, 1, true⟩,
         ⟨"a10.txt->a10.txt", "a10.txt", "a10.txt", "-x10\n+y10", false, 1, 1, true⟩]
        "b.txt->b.txt" "-x\n+y" = some "a2.txt" ∧
    (nextUnviewedFile
        (handleToggleViewed (TrackerState.mk emptyViewedFiles [])
          "b.txt->b.txt" "-x\n+y").viewedFiles
        (sortByKeyCmp
          [⟨"b.txt->b.txt", "b.txt", "b.txt", "-x\n+y", false, 1, 1, true⟩,
           ⟨"a2.txt->a2.txt", "a2.txt", "a2.txt", "-x2\n+y2", false, 1, 1, true⟩,
           ⟨"a10.txt->a10.txt", "a10.txt", "a10.txt", "-x10\n+y10", false, 1, 1,
            true⟩])
        "b.txt->b.txt").map diffFilePath = some "a10.txt" ∧
    ("a2.txt" : String) ≠ "a10.txt" := by decide

/-- Claim C8 as amended: when a file transitions from unviewed to viewed, the
search for the next unviewed file runs over the parsed file list in *list*
order (the splitter's document order — the list is not sorted by the
numeric-then-lexicographic key comparator): it takes the first unviewed file
after the current index, wrapping around to the region before the current
index, and when every file is viewed no navigation happens. -/
theorem next_unviewed_list_order (st : TrackerState)
    (files : List ParsedDiffFile) (k t : String) (idx : Nat)
    (htrans : isFileViewed st.viewedFiles k t = false)
    (hidx : files.findIdx? (fun f => f.key == k) = some idx) :
    nextUnviewedFile (handleToggleViewed st k t).viewedFiles files k =
      (files.drop (idx + 1) ++ files.take idx).find?
        (fun f =>
          !isFileViewed (handleToggleViewed st k t).viewedFiles f.key
            f.diffText) ∧
    (files.all
        (fun f =>
          isFileViewed (handleToggleViewed st k t).viewedFiles f.key
            f.diffText) = true →
      toggleNavigation st files k t = none) := by
  have hchar : nextUnviewedFile (handleToggleViewed st k t).viewedFiles files k =
      (files.drop (idx + 1) ++ files.take idx).find?
        (fun f =>
          !isFileViewed (handleToggleViewed st k t).viewedFiles f.key
            f.diffText) := by
    unfold nextUnviewedFile
    rw [hidx]
    show (match
        scanUnviewed (handleToggleViewed st k t).viewedFiles files (idx + 1)
          files.length with
      | some file => some file
      | none =>
        scanUnviewed (handleToggleViewed st k t).viewedFiles files 0 idx) = _
    rw [scanUnviewed_tail, scanUnviewed_wrap, find?_append_orElse]
    cases (files.drop (idx + 1)).find?
        (fun f =>
          !isFileViewed (handleToggleViewed st k t).viewedFiles f.key
            f.diffText) with
    | none => rfl
    | some file => rfl
  refine ⟨hchar, ?_⟩
  intro hall
  have hnone : nextUnviewedFile (handleToggleViewed st k t).viewedFiles files k =
      none := by
    rw [hchar]
    rw [List.find?_eq_none]
    intro x hx
    have hxf : x ∈ files := by
      rcases List.mem_append.mp hx with h | h
      · exact List.mem_of_mem_drop h
      · exact List.mem_of_mem_take h
    have hxv := List.all_eq_true.mp hall x hxf
    simp [hxv]
  simp [toggleNavigation, htrans, hnone]

/-- Witness for `next_unviewed_list_order`: the two-record sample list with
the first record being toggled. -/
theorem next_unviewed_list_order_witness :
    isFileViewed (TrackerState.mk emptyViewedFiles []).viewedFiles "x->x"
        sampleDiff = false ∧
    [sampleRecord, binarySampleRecord].findIdx? (fun f => f.key == "x->x") =
      some 0 ∧
    (nextUnviewedFile
        (handleToggleViewed (TrackerState.mk emptyViewedFiles []) "x->x"
          sampleDiff).viewedFiles [sampleRecord, binarySampleRecord] "x->x" =
        ([sampleRecord, binarySampleRecord].drop (0 + 1) ++
          [sampleRecord, binarySampleRecord].take 0).find?
          (fun f =>
            !isFileViewed
              (handleToggleViewed (TrackerState.mk emptyViewedFiles []) "x->x"
                sampleDiff).viewedFiles f.key f.diffText) ∧
      ([sampleRecord, binarySampleRecord].all
          (fun f =>
            isFileViewed
              (handleToggleViewed (TrackerState.mk emptyViewedFiles []) "x->x"
                sampleDiff).viewedFiles f.key f.diffText) = true →
        toggleNavigation (TrackerState.mk emptyViewedFiles [])
          [sampleRecord, binarySampleRecord] "x->x" sampleDiff = none)) :=
  ⟨by decide, by decide,
   next_unviewed_list_order (TrackerState.mk emptyViewedFiles [])
     [sampleRecord, binarySampleRecord] "x->x" sampleDiff 0 (by decide)
     (by decide)⟩
